import Mathlib

/-!
Verification of the Archipelago TCS client's state-reconciliation engine.

Shallow embedding of the Python sources under src/lego_star_wars_tcs/.
Memory is modelled as byte-addressed functions; the item/location catalogs
(items.py, locations.py) are external to the provided sources, so item codes
and location ids are opaque parameters.
-/

namespace TCS

/-! ## Score multipliers and studs
From client/game_state_modifiers/generic.py and studs.py. -/

/-- COMBINED_SCORE_MULTIPLIERS from generic.py. -/
def COMBINED_SCORE_MULTIPLIERS : List Nat :=
  [1, 2, 2 * 4, 2 * 4 * 6, 2 * 4 * 6 * 8, 2 * 4 * 6 * 8 * 10]

/-- AcquiredGeneric.current_score_multiplier: indexes the multiplier table at
min(progressive_score_count, len(COMBINED_SCORE_MULTIPLIERS) - 1). -/
def current_score_multiplier (progressive_score_count : Nat) : Nat :=
  COMBINED_SCORE_MULTIPLIERS.getD
    (min progressive_score_count (COMBINED_SCORE_MULTIPLIERS.length - 1)) 0

/-- MAX_STUD_COUNT from studs.py. -/
def MAX_STUD_COUNT : Nat := 4000000000

/-- STUDS_AP_ID_TO_VALUE from studs.py: the single current entry maps the
"Purple Stud" item code to 10000.  The catalog assigning the concrete code is
external, so the code is a parameter. -/
def STUDS_AP_ID_TO_VALUE (purpleStudCode : Int) (apItemId : Int) : Option Nat :=
  if apItemId = purpleStudCode then some 10000 else none

/-- Observable effect of one give_studs call: whether the stud count was read,
and the value written to STUD_COUNT_ADDRESS (none when nothing was written). -/
structure GiveStudsResult where
  didRead : Bool
  write : Option Nat
deriving DecidableEq

/-- give_studs from studs.py.  currentStudCount is the uint read from
STUD_COUNT_ADDRESS when the read happens. -/
def give_studs (purpleStudCode apItemId : Int) (progressiveScoreCount : Nat)
    (currentStudCount : Nat) : GiveStudsResult :=
  match STUDS_AP_ID_TO_VALUE purpleStudCode apItemId with
  | none => ⟨false, none⟩
  | some studsToAdd =>
      let studsToAdd := studsToAdd * current_score_multiplier progressiveScoreCount
      ⟨true, some (min (currentStudCount + studsToAdd) MAX_STUD_COUNT)⟩

/-! ## Goal display text (AcquiredGeneric._update_goal_display) -/

/-- Decimal digits of n, least significant first (the standard base-10
expansion used by str()). -/
def decDigitsRev (n : Nat) : List Nat :=
  if h : n < 10 then [n]
  else
    have : n / 10 < n := Nat.div_lt_self (by omega) (by omega)
    n % 10 :: decDigitsRev (n / 10)

/-- ASCII bytes of str(n): most significant digit first, each digit offset
by 48 (the code of the character zero). -/
def decRepr (n : Nat) : List Nat :=
  (decDigitsRev n).reverse.map (fun d => 48 + d)

/-- AcquiredGeneric._update_goal_display from generic.py, returning the bytes
written to the 16-byte CUSTOM_CHARACTER2_NAME_OFFSET field: the current count
(minikit_count * 5) zero-padded to the width of the target count
(goal_minikit_count * 5), a slash, the target count and " GOAL", truncated to
15 bytes and null-terminated. -/
def goal_display_bytes (minikitCount goalMinikitCount : Nat) : List Nat :=
  let goalCount := decRepr (goalMinikitCount * 5)
  let digitsToDisplay := goalCount.length
  let cur := decRepr (minikitCount * 5)
  let currentMinikitCount := List.replicate (digitsToDisplay - cur.length) 48 ++ cur
  let text := currentMinikitCount ++ [47] ++ goalCount ++ [32, 71, 79, 65, 76]
  text.take 15 ++ [0]

/-! ## Chapter areas (levels.py) -/

/-- ChapterArea from levels.py, restricted to the fields the client's
checkers and modifiers use.  shortName identifies the chapter (episode-number),
address is the base of its save record, statusLevelId is the level id of its
tally screen. -/
structure ChapterArea where
  shortName : String
  episode : Nat
  address : Nat
  statusLevelId : Nat
deriving DecidableEq

/-- ChapterArea.UNLOCKED_OFFSET. -/
def UNLOCKED_OFFSET : Nat := 0

/-! ## Free Play completion checker (location_checkers/free_play_completion.py) -/

/-- CURRENT_GAME_MODE_FREE_PLAY. -/
def CURRENT_GAME_MODE_FREE_PLAY : Nat := 1

/-- STATUS_LEVEL_TYPE_LEVEL_COMPLETION. -/
def STATUS_LEVEL_TYPE_LEVEL_COMPLETION : Nat := 0

/-- STATUS_LEVEL_ID_TO_AREA as a lookup over the chapter list (the level id of
a chapter's status screen back to the chapter). -/
def statusLevelLookup (areas : List ChapterArea) (levelId : Nat) : Option ChapterArea :=
  areas.find? (fun a => a.statusLevelId == levelId)

/-- The mutable fields of FreePlayChapterCompletionChecker. -/
structure FreePlayState where
  sentLocations : Finset Nat
  completedFreePlay : Finset ChapterArea
deriving DecidableEq

/-- The memory reads check_completion can perform, in order: the current
level id, the game-mode byte at CURRENT_GAME_MODE_ADDRESS, the status-type
byte at STATUS_LEVEL_TYPE_ADDRESS. -/
inductive FPRead where
  | levelId
  | gameMode
  | statusType
deriving DecidableEq

/-- Result of one check_completion poll: the updated checker state, the
ordered list of memory reads performed, the (address, value) write performed
if any, and the locations appended to new_location_checks. -/
structure FreePlayPollResult where
  state : FreePlayState
  reads : List FPRead
  write : Option (Nat × Nat)
  emitted : Finset Nat
deriving DecidableEq

/-- FreePlayChapterCompletionChecker.check_completion.  The and-chain in the
source short-circuits, so the game-mode byte is read only when the level-id
lookup succeeded and the location is still missing, and the status-type byte
only when additionally the game mode is Free Play.  apIdOf gives each
chapter's Completion location id (the location catalog is external). -/
def check_completion (areas : List ChapterArea) (apIdOf : ChapterArea → Nat)
    (currentLevelId gameModeByte statusTypeByte : Nat)
    (missing checked : Finset Nat) (st : FreePlayState) : FreePlayPollResult :=
  match statusLevelLookup areas currentLevelId with
  | none =>
      let st' : FreePlayState := ⟨st.sentLocations \ checked, st.completedFreePlay⟩
      ⟨st', [.levelId], none, st'.sentLocations⟩
  | some area =>
      if apIdOf area ∈ missing then
        if gameModeByte = CURRENT_GAME_MODE_FREE_PLAY then
          if statusTypeByte = STATUS_LEVEL_TYPE_LEVEL_COMPLETION then
            let st' : FreePlayState :=
              ⟨(insert (apIdOf area) st.sentLocations) \ checked,
                insert area st.completedFreePlay⟩
            ⟨st', [.levelId, .gameMode, .statusType],
              some (area.address + UNLOCKED_OFFSET, 0b11), st'.sentLocations⟩
          else
            let st' : FreePlayState := ⟨st.sentLocations \ checked, st.completedFreePlay⟩
            ⟨st', [.levelId, .gameMode, .statusType], none, st'.sentLocations⟩
        else
          let st' : FreePlayState := ⟨st.sentLocations \ checked, st.completedFreePlay⟩
          ⟨st', [.levelId, .gameMode], none, st'.sentLocations⟩
      else
        let st' : FreePlayState := ⟨st.sentLocations \ checked, st.completedFreePlay⟩
        ⟨st', [.levelId], none, st'.sentLocations⟩

/-! ## Unlocked chapter manager (game_state_modifiers/levels.py)

The manager is parametrised by a configuration: the chapter list together
with each chapter's prerequisite item codes (in levels.py these are derived
from the chapter's character requirements plus its episode-unlock item via
the external item catalog). -/

/-- One configured chapter: the area and its prerequisite item codes in
order. -/
abbrev UCMConfig := List (ChapterArea × List Int)

/-- The mutable fields of UnlockedChapterManager.  The two dicts are
modelled as partial maps; a key maps to none when absent. -/
structure UCMState where
  rev : Int → Option (List String)
  remaining : String → Option (Finset Int)
  unlocked : Nat → Finset ChapterArea

/-- SHORT_NAME_TO_CHAPTER_AREA as a lookup over the configuration. -/
def findArea (cfg : UCMConfig) (s : String) : Option ChapterArea :=
  (cfg.find? (fun p => p.1.shortName == s)).map (fun p => p.1)

/-- UnlockedChapterManager.__init__: chapters with no prerequisites are
immediately unlocked; otherwise the chapter's code set is recorded in
remaining_chapter_item_requirements and the chapter's short name is appended
to character_to_dependent_game_chapters for each of its codes. -/
def ucmInit (cfg : UCMConfig) : UCMState where
  rev := fun c =>
    let l := cfg.flatMap (fun p =>
      p.2.filterMap (fun d => if d = c then some p.1.shortName else none))
    if l.isEmpty then none else some l
  remaining := fun s =>
    match cfg.find? (fun p => p.1.shortName == s) with
    | some p => if p.2.isEmpty then none else some p.2.toFinset
    | none => none
  unlocked := fun e =>
    ((cfg.filter (fun p => p.2.isEmpty && (p.1.episode == e))).map (fun p => p.1)).toFinset

/-- UnlockedChapterManager.unlock_chapter: add the area to its episode's
unlocked set. -/
def unlockChapter (a : ChapterArea) (st : UCMState) : UCMState :=
  { st with unlocked := fun e =>
      if e = a.episode then insert a (st.unlocked e) else st.unlocked e }

/-- The body of the for-loop in on_character_or_episode_unlocked, iterating
the dependent chapter short names.  none models a raised exception: a failed
assert or a missing dict key. -/
def processChapters (cfg : UCMConfig) (c : Int) :
    List String → UCMState → Option UCMState
  | [], st => some st
  | s :: rest, st =>
      match st.remaining s with
      | none => none
      | some req =>
          if req = ∅ then none
          else if c ∉ req then none
          else
            let req' := req.erase c
            if req' = ∅ then
              match findArea cfg s with
              | none => none
              | some a =>
                  processChapters cfg c rest
                    (unlockChapter a
                      { st with remaining := fun t => if t = s then none else st.remaining t })
            else
              processChapters cfg c rest
                { st with remaining := fun t => if t = s then some req' else st.remaining t }

/-- UnlockedChapterManager.on_character_or_episode_unlocked. -/
def on_character_or_episode_unlocked (cfg : UCMConfig) (c : Int) (st : UCMState) :
    Option UCMState :=
  match st.rev c with
  | none => some st
  | some chapters =>
      (processChapters cfg c chapters st).map
        (fun st' => { st' with rev := fun d => if d = c then none else st'.rev d })

/-- One operation on a live UnlockedChapterManager. -/
inductive UCMOp where
  | unlock (a : ChapterArea)
  | receive (c : Int)

/-- Apply one operation; receiving propagates and can fail (assertion). -/
def applyUCMOp (cfg : UCMConfig) (st : UCMState) (op : UCMOp) : Option UCMState :=
  match op with
  | .unlock a => some (unlockChapter a st)
  | .receive c => on_character_or_episode_unlocked cfg c st

/-- Run a sequence of operations. -/
def runUCMOps (cfg : UCMConfig) (ops : List UCMOp) (st : UCMState) : Option UCMState :=
  ops.foldlM (applyUCMOp cfg) st

/-- Well-formedness of the manager state, as established by __init__ and
preserved by the operations: every reverse-index entry lists distinct pending
chapters whose outstanding set contains the fact and which exist in the
configuration, and conversely every outstanding fact of a pending chapter has
a reverse-index entry naming that chapter. -/
def UCMWF (cfg : UCMConfig) (st : UCMState) : Prop :=
  (∀ c names, st.rev c = some names → names.Nodup ∧
      ∀ s ∈ names,
        (∃ req, st.remaining s = some req ∧ c ∈ req) ∧ (findArea cfg s).isSome) ∧
  (∀ s req c, st.remaining s = some req → c ∈ req →
      ∃ names, st.rev c = some names ∧ s ∈ names)

/-! ## Shop purchase checkers (location_checkers/shop_purchases.py) -/

/-- The remaining_purchases map: byte offset to (bit mask to AP location id),
in insertion order. -/
abbrev RemainingPurchases := List (Nat × List (Nat × Nat))

/-- The pruning pass at the top of check_extra_purchases: drop every entry
whose location is no longer sendable, and every offset left with no
entries. -/
def prunePurchases (sendable : Nat → Bool) (remaining : RemainingPurchases) :
    RemainingPurchases :=
  remaining.filterMap (fun p =>
    let masks := p.2.filter (fun q => sendable q.2)
    if masks.isEmpty then none else some (p.1, masks))

/-- Result of one check_extra_purchases poll: the single read issued if any
(start address and byte count), the bytes that read returned, the location
ids appended to new_location_checks in order, and the map stored back into
remaining_purchases. -/
structure PurchasesPollResult where
  read : Option (Nat × Nat)
  readBytes : List Nat
  emitted : List Nat
  remaining : RemainingPurchases
deriving DecidableEq

/-- BasePurchasesChecker.check_extra_purchases: prune unsendable entries; if
any remain, read the contiguous span from the minimum to the maximum
remaining offset in one call and emit the location of every remaining
(offset, mask) pair whose byte has a mask bit set. -/
def check_extra_purchases (shopAddress : Nat) (sendable : Nat → Bool) (mem : Nat → Nat)
    (remaining : RemainingPurchases) : PurchasesPollResult :=
  let updated := prunePurchases sendable remaining
  match (updated.map Prod.fst).min?, (updated.map Prod.fst).max? with
  | some minB, some maxB =>
      let numBytes := maxB - minB + 1
      let shopBytes := (List.range numBytes).map (fun i => mem (shopAddress + minB + i))
      let emitted := updated.flatMap (fun p =>
        p.2.filterMap (fun q =>
          if shopBytes.getD (p.1 - minB) 0 &&& q.1 ≠ 0 then some q.2 else none))
      ⟨some (shopAddress + minB, numBytes), shopBytes, emitted, updated⟩
  | _, _ => ⟨none, [], [], updated⟩

/-! ## True Jedi and minikit checker (location_checkers/true_jedi_and_minikits.py) -/

/-- remaining_minikit_checks_by_shortname: chapter short name to the list of
(minikit count threshold, AP location id) pairs still being watched.  The
source stores location names and maps them through the external catalog; the
entries here carry the resolved ids directly. -/
abbrev MinikitRemaining := String → Option (List (Nat × Nat))

/-- Pointwise update of the by-shortname map (dict assignment or deletion). -/
def setMinikits (st : MinikitRemaining) (k : String) (v : Option (List (Nat × Nat))) :
    MinikitRemaining :=
  fun s => if s = k then v else st s

/-- TrueJediAndMinikitChecker._check_minikits_from_current_area: drop entries
already acknowledged by the server (checked_locations); if none survive,
delete the chapter's entry; otherwise store the filtered list back, read the
live minikit counter once and emit every remaining entry whose threshold the
counter has reached.  Emission does not remove the entry. -/
def check_minikits_from_current_area (shortname : String) (checked : Finset Nat)
    (minikitCount : Nat) (st : MinikitRemaining) : MinikitRemaining × List Nat :=
  match st shortname with
  | none => (st, [])
  | some remaining =>
      let updated := remaining.filter (fun p => decide (p.2 ∉ checked))
      if updated.isEmpty then (setMinikits st shortname none, [])
      else
        let emitted := updated.filterMap (fun p =>
          if minikitCount ≥ p.1 then some p.2 else none)
        (setMinikits st shortname (some updated), emitted)

/-! ## In-game text display (game_state_modifiers/text_display.py) -/

/-- MAX_MESSAGE_LENGTH: bytes allocated for the scratch message region. -/
def MAX_MESSAGE_LENGTH : Nat := 1024

/-- WAIT_BETWEEN_MESSAGES_NS. -/
def WAIT_BETWEEN_MESSAGES_NS : Int := 2000000000

/-- The mutable fields of InGameTextDisplay after a successful _initialize,
plus the contents of the allocated scratch region (process.allocate returns
zero-filled memory) and the vanilla snapshot read at initialization.  Queued
messages are carried as their encoded byte strings. -/
structure TextDisplayState where
  messageQueue : List (List Nat)
  memoryDirty : Bool
  nextAllowedMessageTime : Int
  nextAllowedCleanTime : Int
  scratch : List Nat
  vanillaBytes : List Nat
deriving DecidableEq

/-- State right after _initialize succeeds: empty queue, clean, both time
gates at -1, freshly allocated (zeroed) scratch, snapshot stored. -/
def initTextDisplay (vanilla : List Nat) : TextDisplayState :=
  ⟨[], false, -1, -1, List.replicate MAX_MESSAGE_LENGTH 0, vanilla⟩

/-- write_bytes_to_double_score_zone: write the string at the start of the
scratch region. -/
def writeScratch (st : TextDisplayState) (s : List Nat) : TextDisplayState :=
  { st with scratch := s ++ st.scratch.drop s.length }

/-- InGameTextDisplay.queue_message (messages enabled). -/
def queue_message (st : TextDisplayState) (m : List Nat) : TextDisplayState :=
  { st with messageQueue := st.messageQueue ++ [m] }

/-- The per-tick inputs: the clock and the five game-state bytes read by
update_game_state. -/
structure TickInput where
  now : Int
  pausedOrStatusByte : Nat
  tabbedOutByte : Nat
  openedMenuDepthByte : Nat
  isPlayingByte : Nat
  gameStateByte : Nat
deriving DecidableEq

/-- The safe-to-interrupt predicate of update_game_state: paused/status byte
nonzero, tabbed-out byte not 1, menu depth 0, is-playing byte 0, game-state
byte in 1..2. -/
def safeToDisplay (i : TickInput) : Bool :=
  decide (i.pausedOrStatusByte ≠ 0) && decide (i.tabbedOutByte ≠ 1) &&
  decide (i.openedMenuDepthByte = 0) && decide (i.isPlayingByte = 0) &&
  decide (1 ≤ i.gameStateByte) && decide (i.gameStateByte ≤ 2)

/-- InGameTextDisplay._display_message with the default delay and duration:
truncate to 1023 bytes plus a null terminator, write it to the scratch
region, mark dirty, and push both time gates forward. -/
def display_message (now : Int) (m : List Nat) (st : TextDisplayState) : TextDisplayState :=
  let encoded := m.take (MAX_MESSAGE_LENGTH - 1) ++ [0]
  let st₁ := writeScratch st encoded
  { st₁ with
      memoryDirty := true
      nextAllowedMessageTime := now + WAIT_BETWEEN_MESSAGES_NS
      nextAllowedCleanTime := max (now + 5000000000) (now + WAIT_BETWEEN_MESSAGES_NS) }

/-- InGameTextDisplay.update_game_state (already initialized): do nothing
before the next allowed message time; with an empty queue, restore the
vanilla bytes once dirty and past the clean time; otherwise pop and display
one message when the safe-to-interrupt predicate holds. -/
def update_game_state (i : TickInput) (st : TextDisplayState) : TextDisplayState :=
  if i.now < st.nextAllowedMessageTime then st
  else
    match st.messageQueue with
    | [] =>
        if st.memoryDirty && decide (st.nextAllowedCleanTime < i.now) then
          { (writeScratch st st.vanillaBytes) with memoryDirty := false }
        else st
    | m :: rest =>
        if safeToDisplay i then
          display_message i.now m { st with messageQueue := rest }
        else st

/-- InGameTextDisplay.on_unhook_game_process: clear the queue and restore the
vanilla bytes when dirty. -/
def on_unhook_game_process (st : TextDisplayState) : TextDisplayState :=
  let st₁ : TextDisplayState := { st with messageQueue := [] }
  if st₁.memoryDirty then
    { (writeScratch st₁ st₁.vanillaBytes) with memoryDirty := false }
  else st₁

/-- One operation on a live display: queueing a message or one engine tick. -/
inductive TDOp where
  | queue (m : List Nat)
  | tick (i : TickInput)

/-- Run a sequence of display operations. -/
def runTD (ops : List TDOp) (st : TextDisplayState) : TextDisplayState :=
  ops.foldl (fun s op =>
    match op with
    | .queue m => queue_message s m
    | .tick i => update_game_state i s) st

end TCS

namespace TCS

/-! ## Theorems for C10, C9, C8 -/

theorem csm_table_mono :
    ∀ j, j ≤ 5 → ∀ i, i ≤ j →
      COMBINED_SCORE_MULTIPLIERS.getD i 0 ≤ COMBINED_SCORE_MULTIPLIERS.getD j 0 := by
  decide

/-- C10: current_score_multiplier always indexes the 6-element table in
bounds at min(n, 5), equals 3840 for n at least 5, and is monotone
non-decreasing in the progressive score count. -/
theorem C10_current_score_multiplier_safe (n : Nat) :
    min n (COMBINED_SCORE_MULTIPLIERS.length - 1) < COMBINED_SCORE_MULTIPLIERS.length ∧
    current_score_multiplier n = COMBINED_SCORE_MULTIPLIERS.getD (min n 5) 0 ∧
    (5 ≤ n → current_score_multiplier n = 3840) ∧
    (∀ m, m ≤ n → current_score_multiplier m ≤ current_score_multiplier n) := by
  refine ⟨?_, rfl, ?_, ?_⟩
  · simp only [COMBINED_SCORE_MULTIPLIERS, List.length_cons, List.length_nil]
    omega
  · intro h
    have hmin : min n 5 = 5 := by omega
    simp only [current_score_multiplier, COMBINED_SCORE_MULTIPLIERS] at *
    norm_num [hmin]
  · intro m hm
    have h1 : min m (COMBINED_SCORE_MULTIPLIERS.length - 1) ≤
        min n (COMBINED_SCORE_MULTIPLIERS.length - 1) := by omega
    have h2 : min n (COMBINED_SCORE_MULTIPLIERS.length - 1) ≤ 5 := by
      simp [COMBINED_SCORE_MULTIPLIERS]
    exact csm_table_mono _ h2 _ h1

/-- C10 witness: concrete instantiation at n = 7 with m = 3. -/
theorem C10_current_score_multiplier_safe_witness :
    current_score_multiplier 7 = 3840 ∧ current_score_multiplier 3 ≤ current_score_multiplier 7 := by
  obtain ⟨-, -, h5, hmono⟩ := C10_current_score_multiplier_safe 7
  exact ⟨h5 (by decide), hmono 3 (by decide)⟩

/-- C9: for the recognized stud item id, give_studs reads the stud count and
writes exactly min(current + 10000 * multiplier, 4000000000); the write never
exceeds 4000000000 and is the exact sum when no saturation occurs.  For an
unrecognized id it performs no read and no write. -/
theorem C9_give_studs (purpleStudCode apItemId : Int) (psc currentStudCount : Nat) :
    (apItemId = purpleStudCode →
      give_studs purpleStudCode apItemId psc currentStudCount =
        ⟨true, some (min (currentStudCount + 10000 * current_score_multiplier psc)
          4000000000)⟩ ∧
      (∀ w, (give_studs purpleStudCode apItemId psc currentStudCount).write = some w →
        w ≤ 4000000000 ∧
        (currentStudCount + 10000 * current_score_multiplier psc ≤ 4000000000 →
          w = currentStudCount + 10000 * current_score_multiplier psc))) ∧
    (apItemId ≠ purpleStudCode →
      give_studs purpleStudCode apItemId psc currentStudCount = ⟨false, none⟩) := by
  constructor
  · intro h
    subst h
    constructor
    · simp [give_studs, STUDS_AP_ID_TO_VALUE, MAX_STUD_COUNT]
    · intro w hw
      simp [give_studs, STUDS_AP_ID_TO_VALUE, MAX_STUD_COUNT] at hw
      omega
  · intro h
    simp [give_studs, STUDS_AP_ID_TO_VALUE, h]

/-- C9 witness: purple stud code 42, one progressive multiplier received
(multiplier 2), current count 100; and unknown id 43 is a no-op. -/
theorem C9_give_studs_witness :
    give_studs 42 42 1 100 = ⟨true, some 20100⟩ ∧
    give_studs 42 43 1 100 = ⟨false, none⟩ := by
  refine ⟨?_, ?_⟩
  · have h := (C9_give_studs 42 42 1 100).1 rfl
    rw [h.1]
    decide
  · exact (C9_give_studs 42 43 1 100).2 (by decide)

theorem decDigitsRev_lt_ten : ∀ n, ∀ d ∈ decDigitsRev n, d < 10 := by
  intro n
  induction n using Nat.strong_induction_on with
  | _ n ih =>
    intro d hd
    rw [decDigitsRev] at hd
    split at hd
    · simp at hd
      omega
    · rcases List.mem_cons.mp hd with h | h
      · omega
      · exact ih (n / 10) (Nat.div_lt_self (by omega) (by omega)) d h

theorem decRepr_bounds (n : Nat) : ∀ b ∈ decRepr n, 48 ≤ b ∧ b ≤ 57 := by
  intro b hb
  simp only [decRepr, List.mem_map, List.mem_reverse] at hb
  obtain ⟨d, hd, rfl⟩ := hb
  have := decDigitsRev_lt_ten n d hd
  omega

/-- C8: the goal-progress bytes are the zero-padded current count, a slash,
the target count and " GOAL", truncated to at most 15 bytes, followed by
exactly one null terminator; the total never exceeds 16 bytes and the null
terminator is the unique zero byte. -/
theorem C8_goal_display (m g : Nat) :
    (goal_display_bytes m g).length ≤ 16 ∧
    (goal_display_bytes m g) =
      ((List.replicate ((decRepr (g * 5)).length - (decRepr (m * 5)).length) 48 ++
        decRepr (m * 5) ++ [47] ++ decRepr (g * 5) ++ [32, 71, 79, 65, 76]).take 15)
        ++ [0] ∧
    (goal_display_bytes m g).getLast? = some 0 ∧
    (∀ b ∈ (goal_display_bytes m g).dropLast, b ≠ 0) ∧
    (goal_display_bytes m g).count 0 = 1 := by
  have hbody : ∀ b ∈ (List.replicate ((decRepr (g * 5)).length - (decRepr (m * 5)).length) 48 ++
      decRepr (m * 5) ++ [47] ++ decRepr (g * 5) ++ [32, 71, 79, 65, 76]).take 15, b ≠ 0 := by
    intro b hb
    have hb' := List.mem_of_mem_take hb
    simp only [List.append_assoc, List.mem_append, List.mem_replicate] at hb'
    rcases hb' with h | h | h | h | h
    · omega
    · have := decRepr_bounds (m * 5) b h
      omega
    · simp at h
      omega
    · have := decRepr_bounds (g * 5) b h
      omega
    · simp at h
      omega
  have heq : goal_display_bytes m g =
      ((List.replicate ((decRepr (g * 5)).length - (decRepr (m * 5)).length) 48 ++
        decRepr (m * 5) ++ [47] ++ decRepr (g * 5) ++ [32, 71, 79, 65, 76]).take 15)
        ++ [0] := by
    simp [goal_display_bytes, List.append_assoc]
  refine ⟨?_, heq, ?_, ?_, ?_⟩
  · rw [heq]
    have := List.length_take_le 15 (List.replicate ((decRepr (g * 5)).length -
      (decRepr (m * 5)).length) 48 ++ decRepr (m * 5) ++ [47] ++ decRepr (g * 5) ++
      [32, 71, 79, 65, 76])
    simp only [List.length_append, List.length_singleton]
    omega
  · rw [heq, List.getLast?_append]
    rfl
  · rw [heq]
    intro b hb
    rw [List.dropLast_concat] at hb
    exact hbody b hb
  · rw [heq, List.count_append]
    have h0 : (((List.replicate ((decRepr (g * 5)).length - (decRepr (m * 5)).length) 48 ++
        decRepr (m * 5) ++ [47] ++ decRepr (g * 5) ++ [32, 71, 79, 65, 76]).take 15)).count 0
        = 0 := by
      rw [List.count_eq_zero]
      intro h
      exact hbody 0 h rfl
    rw [h0]
    rfl

/-! ## Theorems for C1 -/

/-- C1: check_completion confirms a chapter's free-play completion location
only when, on the same poll, the read level id maps to a known status level,
that location is still missing, the game-mode byte equals the free-play value
1 and the status-type byte equals the completion value 0; the level-id read
comes first and the two flag bytes are read only after the lookup (and the
missing test) succeeded; on a true transition the checker writes 0b11 to the
chapter's save address at UNLOCKED_OFFSET and records the completion in its
confirmed sets. -/
theorem C1_check_completion_gating (areas : List ChapterArea) (apIdOf : ChapterArea → Nat)
    (currentLevelId gameModeByte statusTypeByte : Nat) (missing checked : Finset Nat)
    (st : FreePlayState) (r : FreePlayPollResult)
    (hr : r = check_completion areas apIdOf currentLevelId gameModeByte statusTypeByte
      missing checked st) :
    r.reads.head? = some FPRead.levelId ∧
    (FPRead.gameMode ∈ r.reads →
      ∃ area, statusLevelLookup areas currentLevelId = some area ∧ apIdOf area ∈ missing) ∧
    (FPRead.statusType ∈ r.reads →
      ∃ area, statusLevelLookup areas currentLevelId = some area ∧ apIdOf area ∈ missing ∧
        gameModeByte = CURRENT_GAME_MODE_FREE_PLAY) ∧
    ((∃ w, r.write = some w) ↔
      ∃ area, statusLevelLookup areas currentLevelId = some area ∧ apIdOf area ∈ missing ∧
        gameModeByte = CURRENT_GAME_MODE_FREE_PLAY ∧
        statusTypeByte = STATUS_LEVEL_TYPE_LEVEL_COMPLETION) ∧
    (∀ area, statusLevelLookup areas currentLevelId = some area → apIdOf area ∈ missing →
      gameModeByte = CURRENT_GAME_MODE_FREE_PLAY →
      statusTypeByte = STATUS_LEVEL_TYPE_LEVEL_COMPLETION →
      r.write = some (area.address + UNLOCKED_OFFSET, 3) ∧
      area ∈ r.state.completedFreePlay ∧
      (apIdOf area ∉ checked → apIdOf area ∈ r.state.sentLocations)) ∧
    (r.write = none → r.state.completedFreePlay = st.completedFreePlay ∧
      r.state.sentLocations = st.sentLocations \ checked) := by
  subst hr
  cases hfind : statusLevelLookup areas currentLevelId with
  | none =>
      refine ⟨by simp [check_completion, hfind], ?_, ?_, ?_, ?_, ?_⟩
      · intro hmem
        simp [check_completion, hfind] at hmem
      · intro hmem
        simp [check_completion, hfind] at hmem
      · constructor
        · rintro ⟨w, hw⟩
          simp [check_completion, hfind] at hw
        · rintro ⟨a, ha, -⟩
          simp at ha
      · intro a ha
        simp at ha
      · intro _
        simp [check_completion, hfind]
  | some area =>
      by_cases hmiss : apIdOf area ∈ missing
      · by_cases hmode : gameModeByte = CURRENT_GAME_MODE_FREE_PLAY
        · by_cases hstat : statusTypeByte = STATUS_LEVEL_TYPE_LEVEL_COMPLETION
          · refine ⟨by simp [check_completion, hfind, hmiss, hmode, hstat], ?_, ?_, ?_, ?_, ?_⟩
            · exact fun _ => ⟨area, rfl, hmiss⟩
            · exact fun _ => ⟨area, rfl, hmiss, hmode⟩
            · exact ⟨fun _ => ⟨area, rfl, hmiss, hmode, hstat⟩,
                fun _ => ⟨(area.address + UNLOCKED_OFFSET, 3),
                  by simp [check_completion, hfind, hmiss, hmode, hstat, UNLOCKED_OFFSET]⟩⟩
            · intro area' harea' _ _ _
              cases harea'
              refine ⟨by simp [check_completion, hfind, hmiss, hmode, hstat, UNLOCKED_OFFSET],
                by simp [check_completion, hfind, hmiss, hmode, hstat], fun hc => ?_⟩
              simp [check_completion, hfind, hmiss, hmode, hstat]
              exact hc
            · intro hw
              simp [check_completion, hfind, hmiss, hmode, hstat] at hw
          · refine ⟨by simp [check_completion, hfind, hmiss, hmode, hstat], ?_, ?_, ?_, ?_, ?_⟩
            · exact fun _ => ⟨area, rfl, hmiss⟩
            · exact fun _ => ⟨area, rfl, hmiss, hmode⟩
            · constructor
              · rintro ⟨w, hw⟩
                simp [check_completion, hfind, hmiss, hmode, hstat] at hw
              · rintro ⟨a, ha, -, -, h3⟩
                cases ha
                exact absurd h3 hstat
            · intro area' harea' _ _ hs
              cases harea'
              exact absurd hs hstat
            · intro _
              simp [check_completion, hfind, hmiss, hmode, hstat]
        · refine ⟨by simp [check_completion, hfind, hmiss, hmode], ?_, ?_, ?_, ?_, ?_⟩
          · exact fun _ => ⟨area, rfl, hmiss⟩
          · intro hmem
            simp [check_completion, hfind, hmiss, hmode] at hmem
          · constructor
            · rintro ⟨w, hw⟩
              simp [check_completion, hfind, hmiss, hmode] at hw
            · rintro ⟨a, ha, -, h2, -⟩
              cases ha
              exact absurd h2 hmode
          · intro area' harea' _ hm _
            cases harea'
            exact absurd hm hmode
          · intro _
            simp [check_completion, hfind, hmiss, hmode]
      · refine ⟨by simp [check_completion, hfind, hmiss], ?_, ?_, ?_, ?_, ?_⟩
        · intro hmem
          simp [check_completion, hfind, hmiss] at hmem
        · intro hmem
          simp [check_completion, hfind, hmiss] at hmem
        · constructor
          · rintro ⟨w, hw⟩
            simp [check_completion, hfind, hmiss] at hw
          · rintro ⟨a, ha, h1, -⟩
            cases ha
            exact absurd h1 hmiss
        · intro area' harea' hm _ _
          cases harea'
          exact absurd hm hmiss
        · intro _
          simp [check_completion, hfind, hmiss]

/-- C1 witness: one configured chapter whose status level is the current
level, location 500 missing, Free Play mode byte 1, completion status byte 0:
the checker writes 0b11 to the chapter's save address and confirms 500. -/
theorem C1_check_completion_gating_witness :
    (check_completion [⟨"1-1", 1, 100, 7⟩] (fun _ => 500) 7 1 0 {500} ∅
      ⟨∅, ∅⟩).write = some (100, 3) ∧
    500 ∈ (check_completion [⟨"1-1", 1, 100, 7⟩] (fun _ => 500) 7 1 0 {500} ∅
      ⟨∅, ∅⟩).state.sentLocations := by
  have h := C1_check_completion_gating [⟨"1-1", 1, 100, 7⟩] (fun _ => 500) 7 1 0 {500} ∅
    ⟨∅, ∅⟩ _ rfl
  have heff := h.2.2.2.2.1 ⟨"1-1", 1, 100, 7⟩ (by decide) (by decide) rfl rfl
  exact ⟨heff.1, heff.2.2 (by decide)⟩

/-! ## Theorems for C2, C3 -/

theorem processChapters_mono (cfg : UCMConfig) (c : Int) :
    ∀ (names : List String) (st st' : UCMState),
      processChapters cfg c names st = some st' →
      (∀ e, st.unlocked e ⊆ st'.unlocked e) ∧ st'.rev = st.rev := by
  intro names
  induction names with
  | nil =>
      intro st st' h
      simp only [processChapters] at h
      cases h
      exact ⟨fun e => le_refl _, rfl⟩
  | cons s rest ih =>
      intro st st' h
      simp only [processChapters] at h
      split at h
      · cases h
      · split at h
        · cases h
        · split at h
          · cases h
          · split at h
            · split at h
              · cases h
              · rename_i a hfa
                obtain ⟨hsub, hrev⟩ := ih _ _ h
                refine ⟨fun e => le_trans ?_ (hsub e), hrev⟩
                simp only [unlockChapter]
                by_cases he : e = a.episode
                · rw [if_pos he]
                  exact Finset.subset_insert _ _
                · rw [if_neg he]
            · have hh := ih _ _ h
              exact hh

theorem on_unlocked_mono (cfg : UCMConfig) (c : Int) (st st' : UCMState)
    (h : on_character_or_episode_unlocked cfg c st = some st') :
    ∀ e, st.unlocked e ⊆ st'.unlocked e := by
  unfold on_character_or_episode_unlocked at h
  split at h
  · cases h
    exact fun e => le_refl _
  · rename_i chapters hrev
    obtain ⟨st₁, hp, hmap⟩ := Option.map_eq_some'.mp h
    subst hmap
    exact (processChapters_mono cfg c chapters st st₁ hp).1

theorem applyUCMOp_mono (cfg : UCMConfig) (st st' : UCMState) (op : UCMOp)
    (h : applyUCMOp cfg st op = some st') :
    ∀ e, st.unlocked e ⊆ st'.unlocked e := by
  cases op with
  | unlock a =>
      cases h
      intro e
      simp only [unlockChapter]
      by_cases he : e = a.episode
      · rw [if_pos he]
        exact Finset.subset_insert _ _
      · rw [if_neg he]
  | receive c => exact on_unlocked_mono cfg c st st' h

theorem runUCMOps_mono (cfg : UCMConfig) :
    ∀ (ops : List UCMOp) (st st' : UCMState),
      runUCMOps cfg ops st = some st' →
      ∀ e, st.unlocked e ⊆ st'.unlocked e := by
  intro ops
  induction ops with
  | nil =>
      intro st st' h
      cases h
      exact fun e => le_refl _
  | cons op rest ih =>
      intro st st' h
      rw [runUCMOps, List.foldlM_cons] at h
      cases hop : applyUCMOp cfg st op with
      | none => rw [hop] at h; cases h
      | some st₁ =>
          rw [hop] at h
          exact fun e =>
            le_trans (applyUCMOp_mono cfg st st₁ op hop e) (ih st₁ st' h e)

theorem on_unlocked_rev_deleted (cfg : UCMConfig) (c : Int) (st st' : UCMState)
    (h : on_character_or_episode_unlocked cfg c st = some st') :
    st'.rev c = none := by
  unfold on_character_or_episode_unlocked at h
  split at h
  · rename_i hrev
    cases h
    exact hrev
  · rename_i chapters hrev
    obtain ⟨st₁, hp, hmap⟩ := Option.map_eq_some'.mp h
    subst hmap
    simp

theorem on_unlocked_none_of_rev_none (cfg : UCMConfig) (c : Int) (st : UCMState)
    (h : st.rev c = none) :
    on_character_or_episode_unlocked cfg c st = some st := by
  unfold on_character_or_episode_unlocked
  rw [h]

/-- C3: over any run of the manager (construction gives the initial state;
then any sequence of unlock_chapter and on_character_or_episode_unlocked
operations), membership of a chapter in its episode's unlocked set is never
lost, and a fact delivered to the resulting state consumes its reverse-index
entry, so delivering it again afterwards is accepted unchanged (a no-op, no
error) and in particular keeps the chapter unlocked. -/
theorem C3_unlock_monotone (cfg : UCMConfig) (ops : List UCMOp) (st st' : UCMState)
    (e : Nat) (n : ChapterArea)
    (hrun : runUCMOps cfg ops st = some st') (hn : n ∈ st.unlocked e) :
    n ∈ st'.unlocked e ∧
    (∀ c st₁, on_character_or_episode_unlocked cfg c st' = some st₁ →
      st₁.rev c = none ∧
      on_character_or_episode_unlocked cfg c st₁ = some st₁ ∧
      (n ∈ st'.unlocked e → n ∈ st₁.unlocked e)) := by
  refine ⟨runUCMOps_mono cfg ops st st' hrun e hn, ?_⟩
  intro c st₁ h
  have hdel := on_unlocked_rev_deleted cfg c st' st₁ h
  exact ⟨hdel, on_unlocked_none_of_rev_none cfg c st₁ hdel,
    fun hm => on_unlocked_mono cfg c st' st₁ h e hm⟩

/-- C3 witness: a one-chapter configuration whose chapter starts unlocked;
running an unlock and the delivery of an unknown fact keeps it unlocked, and
re-delivery after a successful delivery is the identity. -/
theorem C3_unlock_monotone_witness :
    ∃ st', runUCMOps [(⟨"1-1", 1, 100, 7⟩, [])]
        [UCMOp.unlock ⟨"1-1", 1, 100, 7⟩, UCMOp.receive 9] (ucmInit [(⟨"1-1", 1, 100, 7⟩, [])])
        = some st' ∧
      (⟨"1-1", 1, 100, 7⟩ : ChapterArea) ∈ st'.unlocked 1 := by
  refine ⟨_, rfl, ?_⟩
  have h := C3_unlock_monotone [(⟨"1-1", 1, 100, 7⟩, [])]
    [UCMOp.unlock ⟨"1-1", 1, 100, 7⟩, UCMOp.receive 9] (ucmInit [(⟨"1-1", 1, 100, 7⟩, [])])
    _ 1 ⟨"1-1", 1, 100, 7⟩ rfl (by decide)
  exact h.1

theorem processChapters_spec (cfg : UCMConfig) (c : Int) :
    ∀ (names : List String) (st : UCMState),
      names.Nodup →
      (∀ s ∈ names, (∃ req, st.remaining s = some req ∧ c ∈ req) ∧ (findArea cfg s).isSome) →
      ∃ st', processChapters cfg c names st = some st' ∧
        (∀ s, s ∉ names → st'.remaining s = st.remaining s) ∧
        (∀ s ∈ names, ∀ req, st.remaining s = some req →
            (req.erase c ≠ ∅ → st'.remaining s = some (req.erase c)) ∧
            (req.erase c = ∅ → st'.remaining s = none ∧
              ∃ a, findArea cfg s = some a ∧ a ∈ st'.unlocked a.episode)) := by
  intro names
  induction names with
  | nil =>
      intro st _ _
      exact ⟨st, rfl, fun s _ => rfl, fun s hs => absurd hs (List.not_mem_nil s)⟩
  | cons s rest ih =>
      intro st hnd hpre
      obtain ⟨⟨req, hrem, hc⟩, hfa⟩ := hpre s (List.mem_cons_self s rest)
      obtain ⟨a, ha⟩ := Option.isSome_iff_exists.mp hfa
      have hs_rest : s ∉ rest := (List.nodup_cons.mp hnd).1
      have hnd_rest : rest.Nodup := (List.nodup_cons.mp hnd).2
      have hreq_ne : req ≠ ∅ := Finset.ne_empty_of_mem hc
      by_cases h3 : req.erase c = ∅
      · -- the delivered fact was the chapter's last outstanding requirement
        have hstep : processChapters cfg c (s :: rest) st =
            processChapters cfg c rest (unlockChapter a
              { st with remaining := fun t => if t = s then none else st.remaining t }) := by
          simp only [processChapters]
          split
          · rename_i heq
            rw [hrem] at heq
            cases heq
          · rename_i req' heq
            rw [hrem] at heq
            injection heq with heq
            subst heq
            rw [if_neg hreq_ne, if_neg (not_not_intro hc), if_pos h3, ha]
        have hpre₁ : ∀ t ∈ rest,
            (∃ r, (unlockChapter a
              { st with remaining := fun u => if u = s then none else st.remaining u }).remaining t
                = some r ∧ c ∈ r) ∧ (findArea cfg t).isSome := by
          intro t ht
          have hts : t ≠ s := fun h => hs_rest (h ▸ ht)
          have hpt := hpre t (List.mem_cons_of_mem s ht)
          simpa [unlockChapter, hts] using hpt
        obtain ⟨st', hp, hout, hin⟩ := ih _ hnd_rest hpre₁
        refine ⟨st', by rw [hstep]; exact hp, ?_, ?_⟩
        · intro t ht
          have hts : t ≠ s := fun h => ht (h ▸ List.mem_cons_self s rest)
          have htrest : t ∉ rest := fun h => ht (List.mem_cons_of_mem s h)
          rw [hout t htrest]
          simp [unlockChapter, hts]
        · intro t ht req₀ hreq₀
          rcases List.mem_cons.mp ht with rfl | htr
          · rw [hrem] at hreq₀
            injection hreq₀ with hreq₀
            subst hreq₀
            refine ⟨fun hne => absurd h3 hne, fun _ => ⟨?_, a, ha, ?_⟩⟩
            · rw [hout t hs_rest]
              simp [unlockChapter]
            · have hmono := (processChapters_mono cfg c rest _ st' hp).1 a.episode
              apply hmono
              simp [unlockChapter]
          · have hts : t ≠ s := fun h => hs_rest (h ▸ htr)
            have htransfer : (unlockChapter a
                { st with remaining := fun u => if u = s then none else st.remaining u }).remaining t
                = some req₀ := by
              simp [unlockChapter, hts, hreq₀]
            exact hin t htr req₀ htransfer
      · -- the chapter still has outstanding requirements after removal
        have hstep : processChapters cfg c (s :: rest) st =
            processChapters cfg c rest
              { st with remaining := fun t => if t = s then some (req.erase c)
                  else st.remaining t } := by
          simp only [processChapters]
          split
          · rename_i heq
            rw [hrem] at heq
            cases heq
          · rename_i req' heq
            rw [hrem] at heq
            injection heq with heq
            subst heq
            rw [if_neg hreq_ne, if_neg (not_not_intro hc), if_neg h3]
        have hpre₁ : ∀ t ∈ rest,
            (∃ r, ({ st with remaining :=
              fun u => if u = s then some (req.erase c) else st.remaining u } :
                UCMState).remaining t = some r ∧ c ∈ r) ∧
            (findArea cfg t).isSome := by
          intro t ht
          have hts : t ≠ s := fun h => hs_rest (h ▸ ht)
          have hpt := hpre t (List.mem_cons_of_mem s ht)
          simpa [hts] using hpt
        obtain ⟨st', hp, hout, hin⟩ := ih _ hnd_rest hpre₁
        refine ⟨st', by rw [hstep]; exact hp, ?_, ?_⟩
        · intro t ht
          have hts : t ≠ s := fun h => ht (h ▸ List.mem_cons_self s rest)
          have htrest : t ∉ rest := fun h => ht (List.mem_cons_of_mem s h)
          rw [hout t htrest]
          simp [hts]
        · intro t ht req₀ hreq₀
          rcases List.mem_cons.mp ht with rfl | htr
          · rw [hrem] at hreq₀
            injection hreq₀ with hreq₀
            subst hreq₀
            refine ⟨fun _ => ?_, fun he => absurd he h3⟩
            rw [hout t hs_rest]
            simp
          · have hts : t ≠ s := fun h => hs_rest (h ▸ htr)
            have htransfer : ({ st with remaining :=
                fun u => if u = s then some (req.erase c) else st.remaining u } :
                  UCMState).remaining t = some req₀ := by
              simp [hts, hreq₀]
            exact hin t htr req₀ htransfer

/-- C2: delivering a fact to a well-formed manager never raises: the fact is
removed from the outstanding set of every chapter that lists it, a chapter
whose outstanding set empties is unlocked into its episode's set and removed
from the pending index, chapters not listing the fact are untouched, and a
fact with no reverse-index entry is a no-op. -/
theorem C2_on_character_or_episode_unlocked (cfg : UCMConfig) (c : Int) (st : UCMState)
    (hwf : UCMWF cfg st) :
    ∃ st', on_character_or_episode_unlocked cfg c st = some st' ∧
      (st.rev c = none → st' = st) ∧
      (∀ s req, st.remaining s = some req →
        (c ∉ req → st'.remaining s = some req) ∧
        (c ∈ req → (req.erase c ≠ ∅ → st'.remaining s = some (req.erase c)) ∧
          (req.erase c = ∅ → st'.remaining s = none ∧
            ∃ a, findArea cfg s = some a ∧ a ∈ st'.unlocked a.episode))) := by
  cases hrev : st.rev c with
  | none =>
      refine ⟨st, on_unlocked_none_of_rev_none cfg c st hrev, fun _ => rfl, ?_⟩
      intro s req hreq
      refine ⟨fun _ => hreq, fun hc => ?_⟩
      obtain ⟨names, hnames, -⟩ := hwf.2 s req c hreq hc
      rw [hrev] at hnames
      cases hnames
  | some names =>
      obtain ⟨hnd, hpre⟩ := hwf.1 c names hrev
      obtain ⟨st₁, hp, hout, hin⟩ := processChapters_spec cfg c names st hnd hpre
      refine ⟨{ st₁ with rev := fun d => if d = c then none else st₁.rev d }, ?_, ?_, ?_⟩
      · unfold on_character_or_episode_unlocked
        split
        · rename_i h0
          rw [hrev] at h0
          exact Option.noConfusion h0
        · rename_i names' h0
          rw [hrev] at h0
          injection h0 with h0
          subst h0
          rw [hp]
          rfl
      · intro h0
        exact Option.noConfusion h0
      · intro s req hreq
        constructor
        · intro hc
          by_cases hs : s ∈ names
          · obtain ⟨⟨req', hreq', hc'⟩, -⟩ := hpre s hs
            rw [hreq] at hreq'
            injection hreq' with h
            subst h
            exact absurd hc' hc
          · show st₁.remaining s = some req
            rw [hout s hs]
            exact hreq
        · intro hc
          have hs : s ∈ names := by
            obtain ⟨names', hnames', hsn⟩ := hwf.2 s req c hreq hc
            rw [hrev] at hnames'
            injection hnames' with h
            subst h
            exact hsn
          exact hin s hs req hreq

theorem filterMap_indicator_eq (c : Int) (sn : String) :
    ∀ (l : List Int), l.Nodup →
      l.filterMap (fun d => if d = c then some sn else none) =
        if c ∈ l then [sn] else [] := by
  intro l
  induction l with
  | nil => simp
  | cons d rest ih =>
      intro hnd
      obtain ⟨hd, hnd'⟩ := List.nodup_cons.mp hnd
      by_cases hdc : d = c
      · subst hdc
        simp [List.filterMap_cons, ih hnd', hd]
      · have hcd : c ≠ d := fun h => hdc h.symm
        simp [List.filterMap_cons, hdc, ih hnd', hcd]

theorem ucmInit_rev_list (cfg : UCMConfig) (h2 : ∀ p ∈ cfg, p.2.Nodup) (c : Int) :
    cfg.flatMap (fun p =>
        p.2.filterMap (fun d => if d = c then some p.1.shortName else none)) =
      (cfg.filter (fun p => decide (c ∈ p.2))).map (fun p => p.1.shortName) := by
  induction cfg with
  | nil => rfl
  | cons p rest ih =>
      rw [List.flatMap_cons,
        filterMap_indicator_eq c p.1.shortName p.2 (h2 p (List.mem_cons_self p rest))]
      have ihr := ih (fun q hq => h2 q (List.mem_cons_of_mem p hq))
      by_cases hc : c ∈ p.2
      · simp [List.filter_cons, hc, ihr]
      · simp [List.filter_cons, hc, ihr]

theorem find_by_shortName (cfg : UCMConfig)
    (h1 : (cfg.map (fun p => p.1.shortName)).Nodup) :
    ∀ p ∈ cfg, cfg.find? (fun q => q.1.shortName == p.1.shortName) = some p := by
  induction cfg with
  | nil =>
      intro p hp
      cases hp
  | cons q rest ih =>
      intro p hp
      rcases List.mem_cons.mp hp with rfl | hpr
      · rw [List.find?_cons_of_pos _ (by simp)]
      · have hq : (q.1.shortName == p.1.shortName) = false := by
          rw [beq_eq_false_iff_ne]
          intro he
          have hmem : p.1.shortName ∈ rest.map (fun r => r.1.shortName) :=
            List.mem_map_of_mem _ hpr
          rw [← he] at hmem
          exact (List.nodup_cons.mp h1).1 hmem
        rw [List.find?_cons_of_neg _ (by simp [hq])]
        exact ih (List.nodup_cons.mp h1).2 p hpr

theorem ucmInit_WF (cfg : UCMConfig)
    (h1 : (cfg.map (fun p => p.1.shortName)).Nodup)
    (h2 : ∀ p ∈ cfg, p.2.Nodup) :
    UCMWF cfg (ucmInit cfg) := by
  constructor
  · intro c names hrev
    simp only [ucmInit] at hrev
    rw [ucmInit_rev_list cfg h2 c] at hrev
    split at hrev
    · exact Option.noConfusion hrev
    · injection hrev with hrev
      subst hrev
      constructor
      · -- distinct chapter names, as the filtered map is a sublist of all names
        exact h1.sublist (List.Sublist.map _ (List.filter_sublist cfg))
      · intro s hs
        obtain ⟨p, hpmem, hps⟩ := List.mem_map.mp hs
        have hpcfg : p ∈ cfg := List.mem_of_mem_filter hpmem
        have hcp : c ∈ p.2 := by
          have := List.of_mem_filter hpmem
          simpa using this
        have hfind : cfg.find? (fun q => q.1.shortName == p.1.shortName) = some p :=
          find_by_shortName cfg h1 p hpcfg
        subst hps
        have hne : ¬(p.2.isEmpty = true) := by
          cases hp2 : p.2
          · rw [hp2] at hcp
            cases hcp
          · simp [hp2]
        constructor
        · refine ⟨p.2.toFinset, ?_, by simpa using hcp⟩
          simp only [ucmInit]
          rw [hfind]
          show (if p.2.isEmpty = true then none else some p.2.toFinset) = some p.2.toFinset
          rw [if_neg hne]
        · simp only [findArea]
          rw [hfind]
          rfl
  · intro s req c hrem hc
    simp only [ucmInit] at hrem
    cases hfind : cfg.find? (fun q => q.1.shortName == s) with
    | none =>
        rw [hfind] at hrem
        exact Option.noConfusion hrem
    | some p =>
        rw [hfind] at hrem
        have hrem' : (if p.2.isEmpty = true then none else some p.2.toFinset) = some req :=
          hrem
        by_cases hemp : p.2.isEmpty = true
        · rw [if_pos hemp] at hrem'
          exact Option.noConfusion hrem'
        · rw [if_neg hemp] at hrem'
          injection hrem' with hreq
          have hpcfg : p ∈ cfg := List.mem_of_find?_eq_some hfind
          have hps : p.1.shortName = s := by
            have := List.find?_some hfind
            simpa using this
          have hcp : c ∈ p.2 := by
            rw [← hreq] at hc
            simpa using hc
          have hmem : s ∈ (cfg.filter (fun q => decide (c ∈ q.2))).map
              (fun q => q.1.shortName) := by
            refine List.mem_map.mpr ⟨p, ?_, hps⟩
            exact List.mem_filter.mpr ⟨hpcfg, by simpa using hcp⟩
          refine ⟨(cfg.filter (fun q => decide (c ∈ q.2))).map (fun q => q.1.shortName),
            ?_, hmem⟩
          simp only [ucmInit]
          rw [ucmInit_rev_list cfg h2 c]
          rw [if_neg (by
            intro hemp2
            rw [List.isEmpty_iff] at hemp2
            rw [hemp2] at hmem
            cases hmem)]

/-- C2 witness: two chapters, one needing facts 10 and 11, the other only
fact 10; delivering fact 10 empties the second chapter's outstanding set,
unlocking it and removing it from the pending index, while the first
chapter's set shrinks to 11; the untouched outcome of fact 9 is a no-op. -/
theorem C2_on_character_or_episode_unlocked_witness :
    ∃ st', on_character_or_episode_unlocked
        [(⟨"1-1", 1, 100, 7⟩, [10, 11]), (⟨"1-2", 1, 112, 15⟩, [10])] 10
        (ucmInit [(⟨"1-1", 1, 100, 7⟩, [10, 11]), (⟨"1-2", 1, 112, 15⟩, [10])]) = some st' ∧
      st'.remaining "1-2" = none ∧
      (⟨"1-2", 1, 112, 15⟩ : ChapterArea) ∈ st'.unlocked 1 ∧
      st'.remaining "1-1" = some {11} := by
  obtain ⟨st', hrun, -, hspec⟩ := C2_on_character_or_episode_unlocked
    [(⟨"1-1", 1, 100, 7⟩, [10, 11]), (⟨"1-2", 1, 112, 15⟩, [10])] 10
    (ucmInit [(⟨"1-1", 1, 100, 7⟩, [10, 11]), (⟨"1-2", 1, 112, 15⟩, [10])])
    (ucmInit_WF _ (by decide) (by decide))
  have h12 := hspec "1-2" {10} (by decide)
  have h11 := hspec "1-1" {10, 11} (by decide)
  obtain ⟨hnone, a, ha, hunlocked⟩ := (h12.2 (by decide)).2 (by decide)
  have haB : a = ⟨"1-2", 1, 112, 15⟩ := by
    have : findArea [((⟨"1-1", 1, 100, 7⟩ : ChapterArea), ([10, 11] : List Int)),
        (⟨"1-2", 1, 112, 15⟩, [10])] "1-2" = some ⟨"1-2", 1, 112, 15⟩ := by decide
    rw [this] at ha
    injection ha with ha
    exact ha.symm
  subst haB
  have h11r : st'.remaining "1-1" = some (({10, 11} : Finset Int).erase 10) :=
    (h11.2 (by decide)).1 (by decide)
  refine ⟨st', hrun, hnone, hunlocked, ?_⟩
  rw [h11r]
  congr 1

/-! ## Theorems for C4 -/

theorem rangeMap_getD (f : Nat → Nat) (n i : Nat) (h : i < n) :
    ((List.range n).map f).getD i 0 = f i := by
  rw [List.getD_eq_getElem?_getD, List.getElem?_map, List.getElem?_range h]
  rfl

/-- C4 counterexample: the claim says the checker never reads offsets already
fully confirmed, but the single span read covers confirmed offsets lying
between remaining ones.  After location 101 (the only entry at offset 1)
stops being sendable, the next poll still issues a 3-byte read covering
offsets 0..2 although offset 1 is no longer in the remaining map. -/
theorem C4_counterexample :
    (check_extra_purchases 5000 (fun l => decide (l ≠ 101)) (fun _ => 0)
        [(0, [(1, 100)]), (1, [(1, 101)]), (2, [(1, 102)])]).remaining.map Prod.fst
      = [0, 2] ∧
    (check_extra_purchases 5000 (fun l => decide (l ≠ 101)) (fun _ => 0)
        ((check_extra_purchases 5000 (fun l => decide (l ≠ 101)) (fun _ => 0)
          [(0, [(1, 100)]), (1, [(1, 101)]), (2, [(1, 102)])]).remaining)).read
      = some (5000 + 0, 3) ∧
    ¬ (∀ i, i < 3 →
        (0 + i) ∈ ((check_extra_purchases 5000 (fun l => decide (l ≠ 101)) (fun _ => 0)
          ((check_extra_purchases 5000 (fun l => decide (l ≠ 101)) (fun _ => 0)
            [(0, [(1, 100)]), (1, [(1, 101)]), (2, [(1, 102)])]).remaining)).remaining.map
              Prod.fst)) := by
  decide

/-- C4 amended: on every poll the checker first prunes no-longer-sendable
entries; if entries remain it issues exactly one read of
(max_offset - min_offset + 1) bytes starting at shop_address + min_offset,
where min and max range over the currently remaining offsets (the span may
also cover already-confirmed offsets lying strictly between remaining ones);
every remaining offset lies inside the span and its byte in the single read
equals the byte at shop_address + offset; and a CheckId is emitted exactly
for the remaining (offset, mask) pairs whose byte has a mask bit set. -/
theorem C4_check_extra_purchases_span (shopAddress : Nat) (sendable : Nat → Bool)
    (mem : Nat → Nat) (remaining updated : RemainingPurchases) (r : PurchasesPollResult)
    (hu : updated = prunePurchases sendable remaining)
    (hr : r = check_extra_purchases shopAddress sendable mem remaining) :
    r.remaining = updated ∧
    (updated = [] → r.read = none ∧ r.emitted = []) ∧
    (∀ minB maxB, (updated.map Prod.fst).min? = some minB →
      (updated.map Prod.fst).max? = some maxB →
      r.read = some (shopAddress + minB, maxB - minB + 1) ∧
      (∀ off ∈ updated.map Prod.fst, minB ≤ off ∧ off ≤ maxB) ∧
      (∀ ap, ap ∈ r.emitted ↔ ∃ off masks, (off, masks) ∈ updated ∧
        ∃ mask, (mask, ap) ∈ masks ∧ mem (shopAddress + off) &&& mask ≠ 0)) := by
  subst hu
  subst hr
  simp only [check_extra_purchases]
  split
  · rename_i minB' maxB' hmin' hmax'
    have hbounds : ∀ off ∈ (prunePurchases sendable remaining).map Prod.fst,
        minB' ≤ off ∧ off ≤ maxB' := by
      intro off hoff
      exact ⟨(List.min?_eq_some_iff'.mp hmin').2 off hoff,
        (List.max?_eq_some_iff'.mp hmax').2 off hoff⟩
    have hbyte : ∀ off ∈ (prunePurchases sendable remaining).map Prod.fst,
        ((List.range (maxB' - minB' + 1)).map
          (fun i => mem (shopAddress + minB' + i))).getD (off - minB') 0 =
          mem (shopAddress + off) := by
      intro off hoff
      obtain ⟨hlo, hhi⟩ := hbounds off hoff
      rw [rangeMap_getD _ _ _ (by omega)]
      congr 1
      omega
    refine ⟨rfl, ?_, ?_⟩
    · intro hemp
      rw [hemp] at hmin'
      cases hmin'
    · intro minB maxB hmin hmax
      rw [hmin'] at hmin
      injection hmin with hmin
      subst hmin
      rw [hmax'] at hmax
      injection hmax with hmax
      subst hmax
      refine ⟨rfl, hbounds, ?_⟩
      intro ap
      simp only [List.mem_flatMap, List.mem_filterMap]
      constructor
      · rintro ⟨p, hp, q, hq, hcond⟩
        split at hcond
        · rename_i hbit
          injection hcond with hcond
          subst hcond
          refine ⟨p.1, p.2, hp, q.1, hq, ?_⟩
          rw [← hbyte p.1 (List.mem_map_of_mem Prod.fst hp)]
          exact hbit
        · exact Option.noConfusion hcond
      · rintro ⟨off, masks, hp, mask, hq, hbit⟩
        refine ⟨(off, masks), hp, (mask, ap), hq, ?_⟩
        rw [if_pos ?_]
        rw [hbyte off (List.mem_map_of_mem Prod.fst hp)]
        exact hbit
  · rename_i hfall
    refine ⟨rfl, fun _ => ⟨rfl, rfl⟩, ?_⟩
    intro minB maxB hmin hmax
    exact (hfall minB maxB hmin hmax).elim

/-- C4 witness: the spec's worked scenario, one offset with two masked
entries and the external byte 0x01: a single 1-byte read at the shop base,
check 100 emitted and 101 not. -/
theorem C4_check_extra_purchases_span_witness :
    (check_extra_purchases 0 (fun _ => true) (fun _ => 1)
      [(0, [(1, 100), (2, 101)])]).read = some (0 + 0, 0 - 0 + 1) ∧
    100 ∈ (check_extra_purchases 0 (fun _ => true) (fun _ => 1)
      [(0, [(1, 100), (2, 101)])]).emitted ∧
    101 ∉ (check_extra_purchases 0 (fun _ => true) (fun _ => 1)
      [(0, [(1, 100), (2, 101)])]).emitted := by
  obtain ⟨-, -, hspan⟩ := C4_check_extra_purchases_span 0 (fun _ => true) (fun _ => 1)
    [(0, [(1, 100), (2, 101)])] _ _ rfl rfl
  obtain ⟨hread, -, hemit⟩ := hspan 0 0 (by decide) (by decide)
  refine ⟨hread, ?_, ?_⟩
  · exact (hemit 100).mpr ⟨0, [(1, 100), (2, 101)], by decide, 1, by decide, by decide⟩
  · intro hmem
    obtain ⟨off, masks, hp, mask, hq, hbit⟩ := (hemit 101).mp hmem
    have hoff : off = 0 ∧ masks = [(1, 100), (2, 101)] := by
      rcases List.mem_singleton.mp hp with h
      exact ⟨congrArg Prod.fst h, congrArg Prod.snd h⟩
    obtain ⟨rfl, rfl⟩ := hoff
    rcases List.mem_cons.mp hq with h | h
    · cases h
    · rcases List.mem_cons.mp h with h | h
      · have hm : mask = 2 := congrArg Prod.fst h
        subst hm
        exact hbit (by decide)
      · cases h

/-! ## Theorems for C5 -/

/-- C5 counterexample: the claim says an emitted minikit CheckId is removed
from the remaining set immediately after the emitting poll and never
re-emitted, but the checker only removes entries the server has acknowledged:
with threshold 1 reached and no acknowledgment, the entry survives the first
poll and the second poll emits the same CheckId again. -/
theorem C5_counterexample :
    (check_minikits_from_current_area "1-1" (∅ : Finset Nat) 1
      (fun s => if s = "1-1" then some [(1, 100)] else none)).2 = [100] ∧
    (check_minikits_from_current_area "1-1" (∅ : Finset Nat) 1
      (fun s => if s = "1-1" then some [(1, 100)] else none)).1 "1-1" = some [(1, 100)] ∧
    (check_minikits_from_current_area "1-1" (∅ : Finset Nat) 1
      ((check_minikits_from_current_area "1-1" (∅ : Finset Nat) 1
        (fun s => if s = "1-1" then some [(1, 100)] else none)).1)).2 = [100] := by
  decide

/-- C5 amended: on each poll of a chapter's minikit entries, the checker
leaves other chapters untouched; an absent chapter is a no-op; the stored
list keeps exactly the entries not yet acknowledged by the server (deleting
the chapter once all are acknowledged), independent of emission; and a
CheckId is emitted exactly when its entry is still present, unacknowledged,
and the counter has reached its threshold — so an unacknowledged CheckId is
emitted on every poll whose counter meets the threshold, starting with the
first. -/
theorem C5_check_minikits (shortname : String) (checked : Finset Nat)
    (minikitCount : Nat) (st : MinikitRemaining) :
    (∀ s, s ≠ shortname →
      (check_minikits_from_current_area shortname checked minikitCount st).1 s = st s) ∧
    (st shortname = none →
      check_minikits_from_current_area shortname checked minikitCount st = (st, [])) ∧
    (∀ remaining, st shortname = some remaining →
      ((check_minikits_from_current_area shortname checked minikitCount st).1 shortname =
        (if (remaining.filter (fun p => decide (p.2 ∉ checked))).isEmpty then none
          else some (remaining.filter (fun p => decide (p.2 ∉ checked))))) ∧
      (∀ loc, loc ∈ (check_minikits_from_current_area shortname checked minikitCount st).2 ↔
        ∃ cnt, (cnt, loc) ∈ remaining ∧ loc ∉ checked ∧ cnt ≤ minikitCount)) := by
  cases hsn : st shortname with
  | none =>
      have heq : check_minikits_from_current_area shortname checked minikitCount st =
          (st, []) := by
        unfold check_minikits_from_current_area
        split
        · rfl
        · rename_i remaining hsome
          rw [hsn] at hsome
          exact Option.noConfusion hsome
      refine ⟨fun s _ => by rw [heq], fun _ => heq, ?_⟩
      intro remaining hsome
      exact Option.noConfusion hsome
  | some remaining =>
      by_cases hemp : (remaining.filter (fun p => decide (p.2 ∉ checked))).isEmpty
      · have heq : check_minikits_from_current_area shortname checked minikitCount st =
            (setMinikits st shortname none, []) := by
          unfold check_minikits_from_current_area
          split
          · rename_i hnone
            rw [hsn] at hnone
            exact Option.noConfusion hnone
          · rename_i remaining' hsome
            rw [hsn] at hsome
            injection hsome with hsome
            subst hsome
            rw [if_pos hemp]
        refine ⟨?_, ?_, ?_⟩
        · intro s hs
          rw [heq]
          simp [setMinikits, hs]
        · intro hnone
          exact Option.noConfusion hnone
        · intro remaining' hsome
          injection hsome with hsome
          subst hsome
          constructor
          · rw [heq, if_pos hemp]
            simp [setMinikits]
          · intro loc
            rw [heq]
            simp only [List.not_mem_nil, false_iff]
            rintro ⟨cnt, hmem, hnc, -⟩
            have : (cnt, loc) ∈ remaining.filter (fun p => decide (p.2 ∉ checked)) :=
              List.mem_filter.mpr ⟨hmem, by simpa using hnc⟩
            rw [List.isEmpty_iff] at hemp
            rw [hemp] at this
            cases this
      · have heq : check_minikits_from_current_area shortname checked minikitCount st =
            (setMinikits st shortname
              (some (remaining.filter (fun p => decide (p.2 ∉ checked)))),
             (remaining.filter (fun p => decide (p.2 ∉ checked))).filterMap (fun p =>
               if minikitCount ≥ p.1 then some p.2 else none)) := by
          unfold check_minikits_from_current_area
          split
          · rename_i hnone
            rw [hsn] at hnone
            exact Option.noConfusion hnone
          · rename_i remaining' hsome
            rw [hsn] at hsome
            injection hsome with hsome
            subst hsome
            rw [if_neg hemp]
        refine ⟨?_, ?_, ?_⟩
        · intro s hs
          rw [heq]
          simp [setMinikits, hs]
        · intro hnone
          exact Option.noConfusion hnone
        · intro remaining' hsome
          injection hsome with hsome
          subst hsome
          constructor
          · rw [heq, if_neg hemp]
            simp [setMinikits]
          · intro loc
            rw [heq]
            simp only [List.mem_filterMap, List.mem_filter]
            constructor
            · rintro ⟨p, ⟨hmem, hnc⟩, hcond⟩
              split at hcond
              · rename_i hge
                injection hcond with hcond
                subst hcond
                exact ⟨p.1, hmem, by simpa using hnc, hge⟩
              · exact Option.noConfusion hcond
            · rintro ⟨cnt, hmem, hnc, hle⟩
              refine ⟨(cnt, loc), ⟨hmem, by simpa using hnc⟩, ?_⟩
              rw [if_pos hle]

/-- C5 witness: the spec's scenario, threshold 10 with counter 10 and no
acknowledgment: the CheckId is emitted. -/
theorem C5_check_minikits_witness :
    200 ∈ (check_minikits_from_current_area "1-1" (∅ : Finset Nat) 10
      (fun s => if s = "1-1" then some [(10, 200)] else none)).2 := by
  obtain ⟨-, -, hspec⟩ := C5_check_minikits "1-1" (∅ : Finset Nat) 10
    (fun s => if s = "1-1" then some [(10, 200)] else none)
  obtain ⟨-, hemit⟩ := hspec [(10, 200)] (by decide)
  exact (hemit 200).mpr ⟨10, by decide, by decide, by decide⟩

/-! ## Theorems for C6, C7 -/

theorem update_game_state_inv (vanilla : List Nat) (i : TickInput) (st : TextDisplayState)
    (h1 : st.vanillaBytes = vanilla)
    (h2 : st.memoryDirty = false → st.scratch = List.replicate MAX_MESSAGE_LENGTH 0 ∨
      st.scratch.take vanilla.length = vanilla) :
    (update_game_state i st).vanillaBytes = vanilla ∧
    ((update_game_state i st).memoryDirty = false →
      (update_game_state i st).scratch = List.replicate MAX_MESSAGE_LENGTH 0 ∨
      (update_game_state i st).scratch.take vanilla.length = vanilla) := by
  unfold update_game_state
  split
  · exact ⟨h1, h2⟩
  · split
    · split
      · refine ⟨h1, fun _ => Or.inr ?_⟩
        show (st.vanillaBytes ++ st.scratch.drop st.vanillaBytes.length).take
          vanilla.length = vanilla
        rw [h1]
        exact List.take_left _ _
      · exact ⟨h1, h2⟩
    · split
      · refine ⟨h1, fun hdirty => ?_⟩
        simp [display_message, writeScratch] at hdirty
      · exact ⟨h1, h2⟩

theorem runTD_inv (vanilla : List Nat) :
    ∀ (ops : List TDOp) (st : TextDisplayState),
      st.vanillaBytes = vanilla →
      (st.memoryDirty = false → st.scratch = List.replicate MAX_MESSAGE_LENGTH 0 ∨
        st.scratch.take vanilla.length = vanilla) →
      (runTD ops st).vanillaBytes = vanilla ∧
      ((runTD ops st).memoryDirty = false →
        (runTD ops st).scratch = List.replicate MAX_MESSAGE_LENGTH 0 ∨
        (runTD ops st).scratch.take vanilla.length = vanilla) := by
  intro ops
  induction ops with
  | nil => exact fun st h1 h2 => ⟨h1, h2⟩
  | cons op rest ih =>
      intro st h1 h2
      cases op with
      | queue m => exact ih _ h1 h2
      | tick i =>
          obtain ⟨h1', h2'⟩ := update_game_state_inv vanilla i st h1 h2
          exact ih _ h1' h2'

/-- C6 counterexample: the claim asserts the scratch region ends byte-equal
to the vanilla snapshot regardless of how many messages were shown, but with
zero messages displayed the dirty flag was never set, on_unhook_game_process
writes nothing, and the scratch region keeps its freshly-allocated zero
bytes, which differ from the snapshot. -/
theorem C6_counterexample :
    (on_unhook_game_process (runTD [] (initTextDisplay [68, 0]))).messageQueue = [] ∧
    (on_unhook_game_process (runTD [] (initTextDisplay [68, 0]))).memoryDirty = false ∧
    ¬ ((on_unhook_game_process (runTD [] (initTextDisplay [68, 0]))).scratch.take 2
        = [68, 0]) := by
  decide

/-- C6 amended: after any sequence of queue_message calls and ticks followed
by on_unhook_game_process, the queue is empty and the dirty flag is clear,
and the scratch region either still holds its freshly-allocated zero bytes
(no message was ever written, so no restore happened) or its prefix of the
snapshot's length equals the vanilla snapshot taken at initialization. -/
theorem C6_restoration (vanilla : List Nat) (ops : List TDOp) (st' : TextDisplayState)
    (hst : st' = on_unhook_game_process (runTD ops (initTextDisplay vanilla))) :
    st'.messageQueue = [] ∧ st'.memoryDirty = false ∧
    (st'.scratch = List.replicate MAX_MESSAGE_LENGTH 0 ∨
      st'.scratch.take vanilla.length = vanilla) := by
  subst hst
  obtain ⟨h1, h2⟩ := runTD_inv vanilla ops (initTextDisplay vanilla) rfl
    (fun _ => Or.inl rfl)
  unfold on_unhook_game_process
  dsimp only
  split
  · refine ⟨rfl, rfl, Or.inr ?_⟩
    show ((runTD ops (initTextDisplay vanilla)).vanillaBytes ++
      (runTD ops (initTextDisplay vanilla)).scratch.drop
        (runTD ops (initTextDisplay vanilla)).vanillaBytes.length).take
          vanilla.length = vanilla
    rw [h1]
    exact List.take_left _ _
  · rename_i hnd
    simp only [Bool.not_eq_true] at hnd
    exact ⟨rfl, hnd, h2 hnd⟩

/-- C6 witness: one queued but never displayed message over an empty tick
sequence. -/
theorem C6_restoration_witness :
    (on_unhook_game_process (runTD [TDOp.queue [65, 0]]
      (initTextDisplay [68, 0]))).messageQueue = [] ∧
    (on_unhook_game_process (runTD [TDOp.queue [65, 0]]
      (initTextDisplay [68, 0]))).memoryDirty = false ∧
    ((on_unhook_game_process (runTD [TDOp.queue [65, 0]]
        (initTextDisplay [68, 0]))).scratch = List.replicate MAX_MESSAGE_LENGTH 0 ∨
      (on_unhook_game_process (runTD [TDOp.queue [65, 0]]
        (initTextDisplay [68, 0]))).scratch.take 2 = [68, 0]) :=
  C6_restoration [68, 0] [TDOp.queue [65, 0]] _ rfl

theorem update_game_state_unsafe (i : TickInput) (st : TextDisplayState)
    (hq : st.messageQueue ≠ []) (hs : safeToDisplay i = false) :
    update_game_state i st = st := by
  unfold update_game_state
  split
  · rfl
  · split
    · rename_i heq
      exact absurd heq hq
    · simp [hs]

theorem update_game_state_display (i : TickInput) (st : TextDisplayState) (m : List Nat)
    (rest : List (List Nat)) (hq : st.messageQueue = m :: rest)
    (ht : st.nextAllowedMessageTime ≤ i.now) (hs : safeToDisplay i = true) :
    update_game_state i st = display_message i.now m { st with messageQueue := rest } := by
  unfold update_game_state
  rw [if_neg (by omega)]
  split
  · rename_i heq
    rw [hq] at heq
    exact List.noConfusion heq
  · rename_i m' rest' heq
    rw [hq] at heq
    injection heq with h1 h2
    subst h1
    subst h2
    rw [if_pos hs]

theorem update_game_state_queue_cases (i : TickInput) (st : TextDisplayState) :
    (update_game_state i st).messageQueue = st.messageQueue ∨
    (∃ m rest, st.messageQueue = m :: rest ∧ st.nextAllowedMessageTime ≤ i.now ∧
      safeToDisplay i = true ∧
      update_game_state i st = display_message i.now m { st with messageQueue := rest }) := by
  unfold update_game_state
  split
  · exact Or.inl rfl
  · rename_i htime
    split
    · split
      · exact Or.inl rfl
      · exact Or.inl rfl
    · rename_i m rest heq
      split
      · rename_i hsafe
        exact Or.inr ⟨m, rest, heq, by omega, hsafe, rfl⟩
      · exact Or.inl (by rw [heq])

/-- C7: a tick dequeues at most one message; the queue changes only when the
inter-message delay has elapsed and the composite safe-to-interrupt predicate
holds (paused byte nonzero, tabbed-out byte not 1, menu depth 0, is-playing
byte 0, game-state byte in 1..2); when those hold on a non-empty queue
exactly the head message is displayed (written null-terminated to the
scratch region, dirty set); an unsafe tick leaves the queue untouched, so
the queued message is displayed on the first later tick on which the
predicate holds with the delay elapsed. -/
theorem C7_update_game_state_tick (i : TickInput) (st st' : TextDisplayState)
    (hst : st' = update_game_state i st) :
    (st'.messageQueue = st.messageQueue ∨ st'.messageQueue = st.messageQueue.tail) ∧
    (st'.messageQueue ≠ st.messageQueue →
      st.nextAllowedMessageTime ≤ i.now ∧ safeToDisplay i = true ∧
      st.messageQueue.length = st'.messageQueue.length + 1) ∧
    (safeToDisplay i = false → st'.messageQueue = st.messageQueue) ∧
    (∀ m rest, st.messageQueue = m :: rest → st.nextAllowedMessageTime ≤ i.now →
      safeToDisplay i = true →
      st'.messageQueue = rest ∧ st'.memoryDirty = true ∧
      st'.scratch.take (m.take (MAX_MESSAGE_LENGTH - 1) ++ [0]).length =
        m.take (MAX_MESSAGE_LENGTH - 1) ++ [0]) ∧
    (st.messageQueue ≠ [] → ∀ pre : List TickInput,
      (∀ j ∈ pre, safeToDisplay j = false) →
      runTD (pre.map TDOp.tick) st = st) := by
  subst hst
  refine ⟨?_, ?_, ?_, ?_, ?_⟩
  · rcases update_game_state_queue_cases i st with h | ⟨m, rest, hq, -, -, hdisp⟩
    · exact Or.inl h
    · right
      rw [hdisp, hq]
      rfl
  · intro hne
    rcases update_game_state_queue_cases i st with h | ⟨m, rest, hq, ht, hs, hdisp⟩
    · exact absurd h hne
    · refine ⟨ht, hs, ?_⟩
      rw [hdisp, hq]
      rfl
  · intro hs
    rcases update_game_state_queue_cases i st with h | ⟨-, -, -, -, hs', -⟩
    · exact h
    · rw [hs] at hs'
      exact Bool.noConfusion hs'
  · intro m rest hq ht hs
    rw [update_game_state_display i st m rest hq ht hs]
    exact ⟨rfl, rfl, List.take_left _ _⟩
  · intro hq pre
    induction pre with
    | nil => exact fun _ => rfl
    | cons j rest ih =>
        intro hpre
        have h1 : update_game_state j st = st :=
          update_game_state_unsafe j st hq (hpre j (List.mem_cons_self j rest))
        show runTD (rest.map TDOp.tick) (update_game_state j st) = st
        rw [h1]
        exact ih (fun k hk => hpre k (List.mem_cons_of_mem j hk))

/-- C7 witness: a display with one queued message; a safe tick displays it
(the queue empties and dirty is set), while an unsafe tick (paused byte 0)
leaves the state unchanged. -/
theorem C7_update_game_state_tick_witness :
    (update_game_state ⟨0, 1, 0, 0, 0, 1⟩
      (queue_message (initTextDisplay [0]) [72])).messageQueue = [] ∧
    (update_game_state ⟨0, 1, 0, 0, 0, 1⟩
      (queue_message (initTextDisplay [0]) [72])).memoryDirty = true ∧
    runTD (([⟨0, 0, 0, 0, 0, 1⟩] : List TickInput).map TDOp.tick)
      (queue_message (initTextDisplay [0]) [72]) =
      queue_message (initTextDisplay [0]) [72] := by
  obtain ⟨-, -, -, h4, h5⟩ := C7_update_game_state_tick ⟨0, 1, 0, 0, 0, 1⟩
    (queue_message (initTextDisplay [0]) [72]) _ rfl
  obtain ⟨ha, hb, -⟩ := h4 [72] [] rfl (by decide) (by decide)
  exact ⟨ha, hb, h5 (by decide) [⟨0, 0, 0, 0, 0, 1⟩] (by decide)⟩

end TCS
